import Mathlib

/-!
Verification development for the GST Invoice Management System module
(`gst_invoice_management_system.py`).

The module's business logic is shallowly embedded:
* the `GST Inward Supply` table is a `List InwardSupply`, and the three
  sequential `UPDATE` queries of `update_action` become three list traversals;
* `get_period_options` works over calendar months encoded as a month index
  `i = year * 12 + (month - 1)`; the `MMYYYY` / `YYYYMM` period strings the
  source compares are encoded as the numbers `mm * 10000 + yyyy` and
  `yyyy * 100 + mm` (for four-digit years, lexicographic comparison of the
  equal-length digit strings coincides with numeric comparison);
* dictionaries keep Python's insertion order and are association lists;
* a Python `KeyError` (and `frappe.throw`) is modelled with `Option`; effectful
  entry points return an explicit record of the effects they performed.
-/
/-- One row of the `GST Inward Supply` table, restricted to the columns that
`update_action` reads or writes.  `link_name` is nullable in the schema (the
source wraps it in `IfNull(link_name, "")`), hence `Option String`. -/
structure InwardSupply where
  name : String
  action : String
  previous_action : String
  ims_action : String
  link_name : Option String
  deriving DecidableEq, Repr

/-- Row-level effect of the first `UPDATE` of `update_action` (source lines
154-161, taken when `action == "Rejected"`): rows named in `invoice_names`
with `IfNull(link_name, "") == ""` get `previous_action := action` and
`action := "Ignore"`; other rows are untouched. -/
def reject_copy_down (invoice_names : List String) (r : InwardSupply) :
    InwardSupply :=
  if r.link_name.getD "" = "" ∧ r.name ∈ invoice_names then
    { r with previous_action := r.action, action := "Ignore" }
  else r

/-- Row-level effect of the second `UPDATE` of `update_action` (source lines
166-173, taken when `action != "Rejected"`): rows named in `invoice_names`
with `ims_action == "Rejected"` and `IfNull(link_name, "") == ""` get
`action := previous_action`; other rows are untouched. -/
def restore_previous (invoice_names : List String) (r : InwardSupply) :
    InwardSupply :=
  if r.ims_action = "Rejected" ∧ r.link_name.getD "" = "" ∧
      r.name ∈ invoice_names then
    { r with action := r.previous_action }
  else r

/-- Row-level effect of the final `UPDATE` of `update_action` (source lines
176-181): every row named in `invoice_names` gets `ims_action := action`. -/
def set_ims_action (invoice_names : List String) (action : String)
    (r : InwardSupply) : InwardSupply :=
  if r.name ∈ invoice_names then { r with ims_action := action } else r

/-- Shallow embedding of `GSTInvoiceManagementSystem.update_action`
(source lines 144-181).  The three `frappe.qb.update` statements run in
sequence over the whole table: the conditional copy-down (on `"Rejected"`)
or restore (otherwise), followed by the unconditional `ims_action` update. -/
def update_action (invoices : List InwardSupply) (invoice_names : List String)
    (action : String) : List InwardSupply :=
  let after_action_update :=
    if action = "Rejected" then
      invoices.map (reject_copy_down invoice_names)
    else
      invoices.map (restore_previous invoice_names)
  after_action_update.map (set_ims_action invoice_names action)

/-- A calendar month is encoded as the month index `year * 12 + (month - 1)`;
`add_to_date(date, months=-1)` decrements the index.  This is the `MMYYYY`
string `date.strftime("%m%Y")` of that month, encoded as the number
`mm * 10000 + yyyy`. -/
def period_mmyyyy (i : Nat) : Nat := (i % 12 + 1) * 10000 + i / 12

/-- The inner `format_period` of `get_period_options` (source lines 312-313)
swaps the two halves of an `MMYYYY` period string, giving `YYYYMM`; encoded as
the number `yyyy * 100 + mm`.  For four-digit years the source's lexicographic
comparisons of these equal-length digit strings coincide with numeric
comparison of this encoding. -/
def period_yyyymm (i : Nat) : Nat := (i / 12) * 100 + (i % 12 + 1)

/-- The `while True` loop of `get_period_options` (source lines 329-341):
starting from the month before today and stepping one month back, collect
`MMYYYY` periods until the formatted period is `<=` the latest filed period or
`< "201707"`.  At month index `0` the second break condition always holds
(`period_yyyymm 0 = 1 < 201707`), so the base case returns `[]` exactly as the
source's break does. -/
def period_options_loop (latest_formatted : Nat) : Nat → List Nat
  | 0 => []
  | i + 1 =>
    if period_yyyymm (i + 1) ≤ latest_formatted ∨
        period_yyyymm (i + 1) < 201707 then []
    else period_mmyyyy (i + 1) :: period_options_loop latest_formatted i

/-- Shallow embedding of `get_period_options` (source lines 310-342).
`today` is the current month index; `latest_3b_filed_period` is the result of
the external `get_latest_3b_filed_period`, `none` when no filed GSTR-3B is on
record, in which case the source falls back to
`add_to_date(None, months=-7)` (the "six months ago" fallback).  The source's
conditional `update_gstr_returns_info` call (line 325-326) mutates only
external returns-info state and does not feed back into the local
`latest_3b_filed_period` variable, so it does not affect the returned list. -/
def get_period_options (today : Nat) (latest_3b_filed_period : Option Nat) :
    List Nat :=
  let six_months_ago := today - 7
  let latest_formatted :=
    period_yyyymm (latest_3b_filed_period.getD six_months_ago)
  period_options_loop latest_formatted (today - 1)

/-- One row of the `GST Inward Supply` table as selected for upload by the
external `InwardSupply().get_for_save` / `get_for_reset` store queries,
restricted to the fields `get_data_for_upload` reads.  All remaining fields
are only passed through to the external per-category formatters. -/
structure UploadInvoice where
  doc_type : String
  is_amended : Nat
  deriving DecidableEq, Repr

/-- The grouping key `f"{invoice.doc_type}_{invoice.is_amended}"` of
`get_data_for_upload` (source line 424). -/
def invoice_key (invoice : UploadInvoice) : String :=
  invoice.doc_type ++ "_" ++ Nat.repr invoice.is_amended

/-- Shallow embedding of the module-level constant `CATEGORY_MAP` (source
lines 56-63) as the partial lookup a Python `dict` subscript performs; `none`
models a `KeyError`.  The six values are `GSTRCategory.{B2B, B2BA, B2BDN,
B2BDNA, B2BCN, B2BCNA}.value`; the enum lives outside this repository slice,
and its values are modelled from the spec, which fixes the closed category
enum {B2B, B2BA, B2BDN, B2BDNA, B2BCN, B2BCNA}. -/
def CATEGORY_MAP (key : String) : Option String :=
  if key = "Invoice_0" then some "B2B"
  else if key = "Invoice_1" then some "B2BA"
  else if key = "Debit Note_0" then some "B2BDN"
  else if key = "Debit Note_1" then some "B2BDNA"
  else if key = "Credit Note_0" then some "B2BCN"
  else if key = "Credit Note_1" then some "B2BCNA"
  else none

/-- `key_invoice_map.setdefault(key, []).append(invoice)` (source line 425)
on an insertion-ordered association list: append to the first entry with the
given key, or add a new singleton entry at the end. -/
def add_to_group (m : List (String × List UploadInvoice)) (key : String)
    (invoice : UploadInvoice) : List (String × List UploadInvoice) :=
  match m with
  | [] => [(key, [invoice])]
  | (k, l) :: rest =>
    if k = key then (k, l ++ [invoice]) :: rest
    else (k, l) :: add_to_group rest key invoice

/-- The grouping loop of `get_data_for_upload` (source lines 423-425). -/
def group_by_key (invoices : List UploadInvoice) :
    List (String × List UploadInvoice) :=
  invoices.foldl
    (fun m invoice => add_to_group m (invoice_key invoice) invoice) []

/-- Python's `str.lower()` (applied at source line 441 to the six ASCII
category names): lower-case every character.  Defined over the character list
so that it evaluates by kernel reduction. -/
def string_lower (s : String) : String := ⟨s.data.map Char.toLower⟩

/-- The upload-building loop of `get_data_for_upload` (source lines 427-441):
for each group, look its key up in `CATEGORY_MAP` (a failed lookup is a
`KeyError`, modelled by `none`, aborting the whole call), format every invoice
of the group through the category-specific handler `fmt` (the external
`get_data_handler` formatter pair, kept abstract), and record the non-empty
formatted list under the lower-cased category name. -/
def build_upload_data {F : Type} (fmt : String → UploadInvoice → F) :
    List (String × List UploadInvoice) → Option (List (String × List F))
  | [] => some []
  | (key, invoices) :: rest =>
    match CATEGORY_MAP key with
    | none => none
    | some category =>
      match build_upload_data fmt rest with
      | none => none
      | some upload_data =>
        let upload_invoices := invoices.map (fmt category)
        some (if upload_invoices.isEmpty then upload_data
          else (string_lower category, upload_invoices) :: upload_data)

/-- Shallow embedding of `get_data_for_upload` (source lines 414-443).  The
eligible invoice list (the external store query selected by `request_type`)
is a parameter; the result is the insertion-ordered mapping from lower-cased
category name to formatted invoices, or `none` for a `KeyError`. -/
def get_data_for_upload {F : Type} (fmt : String → UploadInvoice → F)
    (gst_inward_supply_list : List UploadInvoice) :
    Option (List (String × List F)) :=
  build_upload_data fmt (group_by_key gst_inward_supply_list)

def valid_upload_domain : List (String × Nat) :=
  [("Invoice", 0), ("Invoice", 1), ("Debit Note", 0), ("Debit Note", 1),
   ("Credit Note", 0), ("Credit Note", 1)]

/-- Effect record of one `save_ims_invoices` / `reset_ims_invoices` call:
the user-facing error raised (if any), the payload submitted to the portal
via `api.save` / `api.reset` (if the call got that far), and whether an
action-request token was persisted via `set_gstr_actions`. -/
structure SubmissionOutcome (F : Type) where
  error : Option String
  portal_call : Option (List (String × List F))
  token_persisted : Bool
  deriving DecidableEq, Repr

/-- Shallow embedding of `save_ims_invoices` (source lines 368-388).
`return_log_exists` is `frappe.db.exists("GST Return Log", "IMS-ALL-<gstin>")`;
`eligible_for_save` is the external store query `InwardSupply().get_for_save`;
`request_in_progress` abstracts the external `verify_request_in_progress`
guard, whose error message lives outside this repository slice and is
modelled from the spec ("a request is already in progress" precondition
failure).  An unhandled `KeyError` escaping `get_data_for_upload` aborts the
call before any portal interaction. -/
def save_ims_invoices {F : Type} (return_log_exists : Bool)
    (fmt : String → UploadInvoice → F)
    (eligible_for_save : List UploadInvoice)
    (request_in_progress : Bool) : SubmissionOutcome F :=
  if ¬ return_log_exists then
    ⟨some "Please download invoices before uploading", none, false⟩
  else
    match get_data_for_upload fmt eligible_for_save with
    | none => ⟨some "KeyError", none, false⟩
    | some save_data =>
      if save_data.isEmpty then ⟨none, none, false⟩
      else if request_in_progress then
        ⟨some "A request is already in progress", none, false⟩
      else ⟨none, some save_data, true⟩

/-- Shallow embedding of `reset_ims_invoices` (source lines 391-411), which
mirrors `save_ims_invoices` with the `reset` eligibility query
(`InwardSupply().get_for_reset`) and `api.reset`. -/
def reset_ims_invoices {F : Type} (return_log_exists : Bool)
    (fmt : String → UploadInvoice → F)
    (eligible_for_reset : List UploadInvoice)
    (request_in_progress : Bool) : SubmissionOutcome F :=
  if ¬ return_log_exists then
    ⟨some "Please download invoices before uploading", none, false⟩
  else
    match get_data_for_upload fmt eligible_for_reset with
    | none => ⟨some "KeyError", none, false⟩
    | some reset_data =>
      if reset_data.isEmpty then ⟨none, none, false⟩
      else if request_in_progress then
        ⟨some "A request is already in progress", none, false⟩
      else ⟨none, some reset_data, true⟩

/-- One `GSTR Action` row as returned by the external
`return_log.get_unprocessed_action(action)`. -/
structure ActionDocRecord where
  token : String
  request_type : String
  request_id : String
  deriving DecidableEq, Repr

/-- The portal's status payload as read by `process_save_or_reset_ims`:
`response.get("status_cd")` and the optional `response.get("error_report")`
(a mapping category → erroneous invoices, kept as an association list). -/
structure PortalStatusResponse where
  status_cd : String
  error_report : Option (List (String × List String))
  deriving DecidableEq, Repr

/-- Effect record of one `process_save_or_reset_ims` call: the returned
response, the status written onto the action row by `doc.db_set` (the value
being `STATUS_CODE_MAP.get(status_cd)`), the
`publish_action_status_notification` arguments, and the arguments of the
enqueued `update_previous_ims_action` task. -/
structure PollOutcome where
  response : PortalStatusResponse
  persisted_status : Option (Option String)
  notification :
    Option (String × String × String × String × String × Option String)
  enqueued_update : Option (String × List (String × List String))
  deriving DecidableEq, Repr

/-- Shallow embedding of `process_save_or_reset_ims` (source lines 446-479).
`unprocessed_action` is `return_log.get_unprocessed_action(action)`;
`get_request_status` is the external `IMSAPI.get_request_status`, keyed by the
row's token; `status_code_map` is the external constant `STATUS_CODE_MAP`
(`.get`, so a partial lookup); `api_request_id` is `api.request_id`.  When no
unprocessed row exists the dummy response `{"status_cd": "P"}` is returned
with no effects. -/
def process_save_or_reset_ims (return_period : String) (gstin : String)
    (unprocessed_action : Option ActionDocRecord)
    (get_request_status : String → PortalStatusResponse)
    (status_code_map : String → Option String)
    (api_request_id : String) : PollOutcome :=
  match unprocessed_action with
  | none => ⟨⟨"P", none⟩, none, none, none⟩
  | some doc =>
    let response := get_request_status doc.token
    let status_cd := response.status_cd
    ⟨response,
      if status_cd ≠ "IP" then some (status_code_map status_cd) else none,
      if status_cd ≠ "IP" then
        some ("IMS", return_period, doc.request_type, status_cd, gstin,
          if status_cd = "ER" then some api_request_id else none)
      else none,
      if status_cd = "P" ∨ status_cd = "PE" then
        some (doc.request_id, response.error_report.getD [])
      else none⟩

theorem update_action_length (invoices : List InwardSupply)
    (invoice_names : List String) (action : String) :
    (update_action invoices invoice_names action).length = invoices.length := by
  unfold update_action
  split <;> simp

/-- Example exercising every branch on a two-row table. -/
example :
    update_action
      [⟨"inv1", "Accepted", "", "No Action", none⟩,
       ⟨"inv2", "Accepted", "", "No Action", some "PI-1"⟩]
      ["inv1", "inv2"] "Rejected" =
      [⟨"inv1", "Ignore", "Accepted", "Rejected", none⟩,
       ⟨"inv2", "Accepted", "", "Rejected", some "PI-1"⟩] := by
  decide

theorem update_action_get_rejected (invoices : List InwardSupply)
    (invoice_names : List String) (i : Nat) (h : i < invoices.length) :
    (update_action invoices invoice_names "Rejected").get
        ⟨i, h.trans_eq (update_action_length invoices invoice_names
          "Rejected").symm⟩ =
      set_ims_action invoice_names "Rejected"
        (reject_copy_down invoice_names (invoices.get ⟨i, h⟩)) := by
  simp [update_action, List.getElem_map]

theorem update_action_get_other (invoices : List InwardSupply)
    (invoice_names : List String) (action : String) (hne : action ≠ "Rejected")
    (i : Nat) (h : i < invoices.length) :
    (update_action invoices invoice_names action).get
        ⟨i, h.trans_eq (update_action_length invoices invoice_names
          action).symm⟩ =
      set_ims_action invoice_names action
        (restore_previous invoice_names (invoices.get ⟨i, h⟩)) := by
  simp [update_action, if_neg hne, List.getElem_map]

/-- C1 fails as stated: one `"Rejected"` call on an unlinked invoice with
`action = "Accepted"` stores `"Accepted"` in `previous_action`, while a second
identical call overwrites `previous_action` with `"Ignore"`. -/
theorem update_action_not_idempotent_on_rejected :
    ¬ update_action
        (update_action [⟨"inv1", "Accepted", "", "No Action", none⟩]
          ["inv1"] "Rejected")
        ["inv1"] "Rejected" =
      update_action [⟨"inv1", "Accepted", "", "No Action", none⟩]
        ["inv1"] "Rejected" := by
  decide

/-- C1 (amended): for every action other than `"Rejected"`, calling
`update_action` twice with the same action and invoice set yields the same
final state as calling it once. -/
theorem update_action_idempotent_of_ne_rejected (invoices : List InwardSupply)
    (invoice_names : List String) (action : String)
    (hne : action ≠ "Rejected") :
    update_action (update_action invoices invoice_names action)
        invoice_names action =
      update_action invoices invoice_names action := by
  unfold update_action
  simp only [if_neg hne, List.map_map]
  have hrow : ∀ r : InwardSupply,
      (set_ims_action invoice_names action ∘ restore_previous invoice_names)
          ((set_ims_action invoice_names action ∘
            restore_previous invoice_names) r) =
        (set_ims_action invoice_names action ∘
          restore_previous invoice_names) r := by
    intro r
    simp only [Function.comp_apply, set_ims_action, restore_previous]
    by_cases hmem : r.name ∈ invoice_names <;>
      by_cases hres : r.ims_action = "Rejected" ∧ r.link_name.getD "" = "" <;>
        simp [hmem, hres, hne]
  apply List.map_congr_left
  intro r _
  simpa using hrow r

/-- Witness for the amended C1 theorem at a concrete action and table. -/
theorem update_action_idempotent_of_ne_rejected_witness :
    ("Accepted" : String) ≠ "Rejected" ∧
      update_action
          (update_action [⟨"inv1", "Accepted", "", "Rejected", none⟩]
            ["inv1"] "Accepted")
          ["inv1"] "Accepted" =
        update_action [⟨"inv1", "Accepted", "", "Rejected", none⟩]
          ["inv1"] "Accepted" :=
  ⟨by decide,
    update_action_idempotent_of_ne_rejected
      [⟨"inv1", "Accepted", "", "Rejected", none⟩] ["inv1"] "Accepted"
      (by decide)⟩

/-- C2: after any `update_action(ids, "Rejected")` call, every invoice in
`ids` whose `link_name` is empty has `previous_action` equal to its pre-call
`action` value and `action` equal to `"Ignore"`. -/
theorem update_action_rejected_copies_down (invoices : List InwardSupply)
    (invoice_names : List String) (i : Nat) (h : i < invoices.length)
    (hmem : (invoices.get ⟨i, h⟩).name ∈ invoice_names)
    (hunlinked : (invoices.get ⟨i, h⟩).link_name.getD "" = "") :
    ((update_action invoices invoice_names "Rejected").get
        ⟨i, h.trans_eq (update_action_length invoices invoice_names
          "Rejected").symm⟩).previous_action =
      (invoices.get ⟨i, h⟩).action ∧
    ((update_action invoices invoice_names "Rejected").get
        ⟨i, h.trans_eq (update_action_length invoices invoice_names
          "Rejected").symm⟩).action = "Ignore" := by
  rw [update_action_get_rejected invoices invoice_names i h]
  simp only [List.get_eq_getElem] at hmem hunlinked ⊢
  simp [set_ims_action, reject_copy_down, hmem, hunlinked]

/-- Witness for C2 at a concrete one-row table. -/
theorem update_action_rejected_copies_down_witness :
    (([⟨"inv1", "Accepted", "", "No Action", none⟩] :
        List InwardSupply).get ⟨0, by decide⟩).name ∈ ["inv1"] ∧
    (([⟨"inv1", "Accepted", "", "No Action", none⟩] :
        List InwardSupply).get ⟨0, by decide⟩).link_name.getD "" = "" ∧
    (((update_action [⟨"inv1", "Accepted", "", "No Action", none⟩] ["inv1"]
        "Rejected").get ⟨0, by decide⟩).previous_action =
      (([⟨"inv1", "Accepted", "", "No Action", none⟩] :
        List InwardSupply).get ⟨0, by decide⟩).action ∧
    ((update_action [⟨"inv1", "Accepted", "", "No Action", none⟩] ["inv1"]
        "Rejected").get ⟨0, by decide⟩).action = "Ignore") :=
  ⟨by decide, by decide,
    update_action_rejected_copies_down
      [⟨"inv1", "Accepted", "", "No Action", none⟩] ["inv1"] 0 (by decide)
      (by decide) (by decide)⟩

/-- C3: after any `update_action(ids, X)` call with `X != "Rejected"`, every
invoice in `ids` that is unlinked and had pre-call `ims_action == "Rejected"`
has its `action` field restored to its stored `previous_action` value. -/
theorem update_action_restores_previous (invoices : List InwardSupply)
    (invoice_names : List String) (action : String)
    (hne : action ≠ "Rejected") (i : Nat) (h : i < invoices.length)
    (hmem : (invoices.get ⟨i, h⟩).name ∈ invoice_names)
    (hunlinked : (invoices.get ⟨i, h⟩).link_name.getD "" = "")
    (hrej : (invoices.get ⟨i, h⟩).ims_action = "Rejected") :
    ((update_action invoices invoice_names action).get
        ⟨i, h.trans_eq (update_action_length invoices invoice_names
          action).symm⟩).action =
      (invoices.get ⟨i, h⟩).previous_action := by
  rw [update_action_get_other invoices invoice_names action hne i h]
  simp only [List.get_eq_getElem] at hmem hunlinked hrej ⊢
  simp [set_ims_action, restore_previous, hmem, hunlinked, hrej]

/-- Witness for C3 at a concrete one-row table. -/
theorem update_action_restores_previous_witness :
    ("Accepted" : String) ≠ "Rejected" ∧
    (([⟨"inv1", "Ignore", "Pending", "Rejected", none⟩] :
        List InwardSupply).get ⟨0, by decide⟩).name ∈ ["inv1"] ∧
    (([⟨"inv1", "Ignore", "Pending", "Rejected", none⟩] :
        List InwardSupply).get ⟨0, by decide⟩).link_name.getD "" = "" ∧
    (([⟨"inv1", "Ignore", "Pending", "Rejected", none⟩] :
        List InwardSupply).get ⟨0, by decide⟩).ims_action = "Rejected" ∧
    ((update_action [⟨"inv1", "Ignore", "Pending", "Rejected", none⟩]
        ["inv1"] "Accepted").get ⟨0, by decide⟩).action =
      (([⟨"inv1", "Ignore", "Pending", "Rejected", none⟩] :
        List InwardSupply).get ⟨0, by decide⟩).previous_action :=
  ⟨by decide, by decide, by decide, by decide,
    update_action_restores_previous
      [⟨"inv1", "Ignore", "Pending", "Rejected", none⟩] ["inv1"] "Accepted"
      (by decide) 0 (by decide) (by decide) (by decide) (by decide)⟩

/-- C4 (frame): for every `update_action(ids, a)` call and every row of the
table, (1) every invoice in `ids` — linked or not — ends with
`ims_action = a`; (2) every invoice in `ids` that is linked (non-empty
`link_name`) keeps its `action` and `previous_action` unchanged; (3) every
invoice not in `ids` is left entirely unchanged. -/
theorem update_action_frame (invoices : List InwardSupply)
    (invoice_names : List String) (action : String) (i : Nat)
    (h : i < invoices.length) :
    ((invoices.get ⟨i, h⟩).name ∈ invoice_names →
      ((update_action invoices invoice_names action).get
        ⟨i, h.trans_eq (update_action_length invoices invoice_names
          action).symm⟩).ims_action = action) ∧
    ((invoices.get ⟨i, h⟩).name ∈ invoice_names →
      ¬ (invoices.get ⟨i, h⟩).link_name.getD "" = "" →
      ((update_action invoices invoice_names action).get
          ⟨i, h.trans_eq (update_action_length invoices invoice_names
            action).symm⟩).action = (invoices.get ⟨i, h⟩).action ∧
      ((update_action invoices invoice_names action).get
          ⟨i, h.trans_eq (update_action_length invoices invoice_names
            action).symm⟩).previous_action =
        (invoices.get ⟨i, h⟩).previous_action) ∧
    ((invoices.get ⟨i, h⟩).name ∉ invoice_names →
      (update_action invoices invoice_names action).get
          ⟨i, h.trans_eq (update_action_length invoices invoice_names
            action).symm⟩ = invoices.get ⟨i, h⟩) := by
  by_cases hr : action = "Rejected"
  · subst hr
    rw [update_action_get_rejected invoices invoice_names i h]
    simp only [List.get_eq_getElem]
    refine ⟨fun hmem => ?_, fun hmem hlinked => ?_, fun hmem => ?_⟩
    · by_cases hu : invoices[i].link_name.getD "" = "" <;>
        simp [set_ims_action, reject_copy_down, hmem, hu]
    · simp [set_ims_action, reject_copy_down, hmem, hlinked]
    · simp [set_ims_action, reject_copy_down, hmem]
  · rw [update_action_get_other invoices invoice_names action hr i h]
    simp only [List.get_eq_getElem]
    refine ⟨fun hmem => ?_, fun hmem hlinked => ?_, fun hmem => ?_⟩
    · by_cases hrej : invoices[i].ims_action = "Rejected" <;>
        by_cases hu : invoices[i].link_name.getD "" = "" <;>
          simp [set_ims_action, restore_previous, hmem, hrej, hu]
    · simp [set_ims_action, restore_previous, hmem, hlinked]
    · simp [set_ims_action, restore_previous, hmem]

/-- Witness for C4 at a concrete table with a linked targeted row. -/
theorem update_action_frame_witness :
    (([⟨"inv2", "Accepted", "", "No Action", some "PI-1"⟩] :
        List InwardSupply).get ⟨0, by decide⟩).name ∈ ["inv2"] ∧
    ¬ (([⟨"inv2", "Accepted", "", "No Action", some "PI-1"⟩] :
        List InwardSupply).get ⟨0, by decide⟩).link_name.getD "" = "" ∧
    ((update_action [⟨"inv2", "Accepted", "", "No Action", some "PI-1"⟩]
        ["inv2"] "Rejected").get ⟨0, by decide⟩).ims_action = "Rejected" ∧
    ((update_action [⟨"inv2", "Accepted", "", "No Action", some "PI-1"⟩]
          ["inv2"] "Rejected").get ⟨0, by decide⟩).action =
        (([⟨"inv2", "Accepted", "", "No Action", some "PI-1"⟩] :
          List InwardSupply).get ⟨0, by decide⟩).action ∧
    ((update_action [⟨"inv2", "Accepted", "", "No Action", some "PI-1"⟩]
          ["inv2"] "Rejected").get ⟨0, by decide⟩).previous_action =
        (([⟨"inv2", "Accepted", "", "No Action", some "PI-1"⟩] :
          List InwardSupply).get ⟨0, by decide⟩).previous_action :=
  ⟨by decide, by decide,
    (update_action_frame [⟨"inv2", "Accepted", "", "No Action", some "PI-1"⟩]
        ["inv2"] "Rejected" 0 (by decide)).1 (by decide),
    ((update_action_frame [⟨"inv2", "Accepted", "", "No Action", some "PI-1"⟩]
        ["inv2"] "Rejected" 0 (by decide)).2.1 (by decide) (by decide)).1,
    ((update_action_frame [⟨"inv2", "Accepted", "", "No Action", some "PI-1"⟩]
        ["inv2"] "Rejected" 0 (by decide)).2.1 (by decide) (by decide)).2⟩

/-- Sanity check: October 2024 (index `24297`) with no filed period on record
yields the six periods September 2024 down to April 2024. -/
example : get_period_options 24297 none =
    [92024, 82024, 72024, 62024, 52024, 42024] := by decide

theorem period_yyyymm_mono {i j : Nat} (h : i ≤ j) :
    period_yyyymm i ≤ period_yyyymm j := by
  unfold period_yyyymm
  omega

theorem period_options_loop_length (j : Nat) (i : Nat) :
    (period_options_loop (period_yyyymm j) i).length ≤ i - j := by
  induction i with
  | zero => simp [period_options_loop]
  | succ i ih =>
    unfold period_options_loop
    split
    · simp
    · rename_i hcond
      have hj : j < i + 1 := by
        by_contra hle
        push_neg at hle
        exact hcond (Or.inl (period_yyyymm_mono hle))
      simp only [List.length_cons]
      omega

theorem period_options_loop_mem (latest_formatted : Nat) (i : Nat) :
    ∀ p ∈ period_options_loop latest_formatted i,
      ∃ k, p = period_mmyyyy k ∧ latest_formatted < period_yyyymm k ∧
        201707 ≤ period_yyyymm k := by
  induction i with
  | zero => simp [period_options_loop]
  | succ i ih =>
    intro p hp
    unfold period_options_loop at hp
    split at hp
    · simp at hp
    · rename_i hcond
      push_neg at hcond
      rcases List.mem_cons.mp hp with h | h
      · exact ⟨i + 1, h, hcond.1, hcond.2⟩
      · exact ih p h

/-- C5 fails as stated: with today = October 2024 (month index `24297`) and a
most recent filed GSTR-3B period of December 2019 (index `24239`), the
returned list has 57 periods, more than six — the loop is bounded below only
by the filed period and July 2017, not additionally by "6 months ago". -/
theorem get_period_options_can_exceed_six :
    ¬ (get_period_options 24297 (some 24239)).length ≤ 6 := by
  decide

/-- C5 (amended): every returned period is an `MMYYYY`-formatted month that is
strictly more recent than the most recent filed GSTR-3B period (or, if none is
on record, than the seven-months-ago fallback) and not earlier than July 2017;
the list has at most six entries whenever no filed period is on record.  (When
a filed period older than the fallback is on record the list may exceed six
entries.) -/
theorem get_period_options_bounds (today : Nat)
    (latest_3b_filed_period : Option Nat) :
    (∀ p ∈ get_period_options today latest_3b_filed_period,
      ∃ k, p = period_mmyyyy k ∧
        period_yyyymm (latest_3b_filed_period.getD (today - 7)) <
          period_yyyymm k ∧
        201707 ≤ period_yyyymm k) ∧
    (latest_3b_filed_period = none →
      (get_period_options today latest_3b_filed_period).length ≤ 6) := by
  constructor
  · intro p hp
    exact period_options_loop_mem _ _ p hp
  · intro hnone
    subst hnone
    unfold get_period_options
    simp only [Option.getD_none]
    have := period_options_loop_length (today - 7) (today - 1)
    omega

/-- Witness for the amended C5 theorem: concrete membership and fallback
instances. -/
theorem get_period_options_bounds_witness :
    92024 ∈ get_period_options 24297 none ∧
    (∃ k, 92024 = period_mmyyyy k ∧
      period_yyyymm ((none : Option Nat).getD (24297 - 7)) <
        period_yyyymm k ∧
      201707 ≤ period_yyyymm k) ∧
    (get_period_options 24297 none).length ≤ 6 :=
  ⟨by decide,
    (get_period_options_bounds 24297 none).1 92024 (by decide),
    (get_period_options_bounds 24297 none).2 rfl⟩

/-- Example: two plain invoices and an amended credit note. -/
example :
    get_data_for_upload (fun category invoice => (category, invoice))
      [⟨"Invoice", 0⟩, ⟨"Credit Note", 1⟩, ⟨"Invoice", 0⟩] =
    some [("b2b", [("B2B", ⟨"Invoice", 0⟩), ("B2B", ⟨"Invoice", 0⟩)]),
          ("b2bcna", [("B2BCNA", ⟨"Credit Note", 1⟩)])] := by
  decide

/-- Example: an out-of-domain document type raises a `KeyError`. -/
example :
    get_data_for_upload (fun category invoice => (category, invoice))
      [⟨"Invoice", 0⟩, ⟨"Bill of Entry", 0⟩] = none := by
  decide

theorem add_to_group_sound (S : List UploadInvoice)
    (m : List (String × List UploadInvoice)) (key : String)
    (invoice : UploadInvoice)
    (hm : ∀ p ∈ m, p.2 ≠ [] ∧ ∀ x ∈ p.2, invoice_key x = p.1 ∧ x ∈ S)
    (hkey : invoice_key invoice = key) (hinv : invoice ∈ S) :
    ∀ p ∈ add_to_group m key invoice,
      p.2 ≠ [] ∧ ∀ x ∈ p.2, invoice_key x = p.1 ∧ x ∈ S := by
  induction m with
  | nil =>
    intro p hp
    simp only [add_to_group, List.mem_singleton] at hp
    subst hp
    exact ⟨by simp, fun x hx => by
      simp only [List.mem_singleton] at hx
      subst hx
      exact ⟨hkey, hinv⟩⟩
  | cons head rest ih =>
    obtain ⟨k, l⟩ := head
    intro p hp
    simp only [add_to_group] at hp
    by_cases hk : k = key
    · rw [if_pos hk] at hp
      rcases List.mem_cons.mp hp with h | h
      · subst h
        refine ⟨by simp, fun x hx => ?_⟩
        rcases List.mem_append.mp hx with hx | hx
        · exact (hm (k, l) (List.mem_cons_self _ _)).2 x hx
        · simp only [List.mem_singleton] at hx
          subst hx
          exact ⟨hk ▸ hkey, hinv⟩
      · exact hm p (List.mem_cons_of_mem _ h)
    · rw [if_neg hk] at hp
      rcases List.mem_cons.mp hp with h | h
      · subst h
        exact hm (k, l) (List.mem_cons_self _ _)
      · exact ih (fun q hq => hm q (List.mem_cons_of_mem _ hq)) p h

theorem group_fold_sound (S : List UploadInvoice)
    (invoices : List UploadInvoice) :
    ∀ acc : List (String × List UploadInvoice),
      (∀ p ∈ acc, p.2 ≠ [] ∧ ∀ x ∈ p.2, invoice_key x = p.1 ∧ x ∈ S) →
      (∀ i ∈ invoices, i ∈ S) →
      ∀ p ∈ invoices.foldl
          (fun m invoice => add_to_group m (invoice_key invoice) invoice) acc,
        p.2 ≠ [] ∧ ∀ x ∈ p.2, invoice_key x = p.1 ∧ x ∈ S := by
  induction invoices with
  | nil =>
    intro acc hacc _ p hp
    exact hacc p hp
  | cons a rest ih =>
    intro acc hacc hsub p hp
    simp only [List.foldl_cons] at hp
    exact ih _
      (add_to_group_sound S acc _ a hacc rfl (hsub a (List.mem_cons_self _ _)))
      (fun i hi => hsub i (List.mem_cons_of_mem _ hi)) p hp

/-- Every group produced by the `setdefault` loop is non-empty, is labelled by
its members' common key, and contains only input invoices. -/
theorem group_by_key_sound (invoices : List UploadInvoice) :
    ∀ p ∈ group_by_key invoices,
      p.2 ≠ [] ∧ ∀ x ∈ p.2, invoice_key x = p.1 ∧ x ∈ invoices :=
  group_fold_sound invoices invoices [] (by simp) (fun i hi => hi)

theorem add_to_group_self (m : List (String × List UploadInvoice))
    (key : String) (invoice : UploadInvoice) :
    ∃ l, (key, l) ∈ add_to_group m key invoice ∧ invoice ∈ l := by
  induction m with
  | nil => exact ⟨[invoice], by simp [add_to_group]⟩
  | cons head rest ih =>
    obtain ⟨k, l⟩ := head
    by_cases hk : k = key
    · subst hk
      exact ⟨l ++ [invoice], by simp [add_to_group]⟩
    · obtain ⟨l', hmem, hin⟩ := ih
      refine ⟨l', ?_, hin⟩
      simp only [add_to_group, if_neg hk]
      exact List.mem_cons_of_mem _ hmem

theorem add_to_group_preserve (m : List (String × List UploadInvoice))
    (key' : String) (invoice' : UploadInvoice) (k : String)
    (l : List UploadInvoice) (x : UploadInvoice) (hmem : (k, l) ∈ m)
    (hx : x ∈ l) :
    ∃ l', (k, l') ∈ add_to_group m key' invoice' ∧ x ∈ l' := by
  induction m with
  | nil => simp at hmem
  | cons head rest ih =>
    obtain ⟨k0, l0⟩ := head
    by_cases hk : k0 = key'
    · simp only [add_to_group, if_pos hk]
      rcases List.mem_cons.mp hmem with h | h
      · obtain ⟨hk1, hl1⟩ := Prod.mk.injEq .. ▸ h
        exact ⟨l0 ++ [invoice'], by rw [hk1]; exact List.mem_cons_self _ _,
          List.mem_append_left _ (hl1 ▸ hx)⟩
      · exact ⟨l, List.mem_cons_of_mem _ h, hx⟩
    · simp only [add_to_group, if_neg hk]
      rcases List.mem_cons.mp hmem with h | h
      · exact ⟨l, h ▸ List.mem_cons_self _ _, hx⟩
      · obtain ⟨l', hmem', hx'⟩ := ih h
        exact ⟨l', List.mem_cons_of_mem _ hmem', hx'⟩

theorem group_fold_preserve (invoices : List UploadInvoice) :
    ∀ (acc : List (String × List UploadInvoice)) (k : String)
      (l : List UploadInvoice) (x : UploadInvoice),
      (k, l) ∈ acc → x ∈ l →
      ∃ l', (k, l') ∈ invoices.foldl
          (fun m invoice => add_to_group m (invoice_key invoice) invoice) acc ∧
        x ∈ l' := by
  induction invoices with
  | nil =>
    intro acc k l x hmem hx
    exact ⟨l, hmem, hx⟩
  | cons a rest ih =>
    intro acc k l x hmem hx
    simp only [List.foldl_cons]
    obtain ⟨l', hmem', hx'⟩ := add_to_group_preserve acc _ a k l x hmem hx
    exact ih _ k l' x hmem' hx'

/-- Every input invoice ends up in the group labelled by its own key. -/
theorem group_by_key_covers (invoices : List UploadInvoice) :
    ∀ invoice ∈ invoices,
      ∃ l, (invoice_key invoice, l) ∈ group_by_key invoices ∧ invoice ∈ l := by
  suffices h : ∀ (invs : List UploadInvoice)
      (acc : List (String × List UploadInvoice)), ∀ invoice ∈ invs,
      ∃ l, (invoice_key invoice, l) ∈ invs.foldl
          (fun m invoice => add_to_group m (invoice_key invoice) invoice) acc ∧
        invoice ∈ l from
    fun invoice hmem => h invoices [] invoice hmem
  intro invs
  induction invs with
  | nil => intro acc invoice hmem; simp at hmem
  | cons a rest ih =>
    intro acc invoice hmem
    simp only [List.foldl_cons]
    rcases List.mem_cons.mp hmem with h | h
    · subst h
      obtain ⟨l, hmem', hin⟩ := add_to_group_self acc (invoice_key invoice) invoice
      exact group_fold_preserve rest _ _ l invoice hmem' hin
    · exact ih _ invoice h

theorem build_upload_data_of_group {F : Type} (fmt : String → UploadInvoice → F)
    (g : List (String × List UploadInvoice)) :
    ∀ m, build_upload_data fmt g = some m →
      ∀ k l, (k, l) ∈ g →
        ∃ cat, CATEGORY_MAP k = some cat ∧
          (l ≠ [] → (string_lower cat, l.map (fmt cat)) ∈ m) := by
  induction g with
  | nil =>
    intro m _ k l hmem
    simp at hmem
  | cons head rest ih =>
    obtain ⟨k0, l0⟩ := head
    intro m hbuild k l hmem
    simp only [build_upload_data] at hbuild
    cases hcat : CATEGORY_MAP k0 with
    | none => rw [hcat] at hbuild; exact absurd hbuild (by simp)
    | some cat0 =>
      rw [hcat] at hbuild
      cases hrest : build_upload_data fmt rest with
      | none => rw [hrest] at hbuild; exact absurd hbuild (by simp)
      | some m' =>
        rw [hrest] at hbuild
        simp only [Option.some.injEq] at hbuild
        have hsub : ∀ q, q ∈ m' → q ∈ m := by
          intro q hq
          rw [← hbuild]
          split
          · exact hq
          · exact List.mem_cons_of_mem _ hq
        rcases List.mem_cons.mp hmem with h | h
        · obtain ⟨hk1, hl1⟩ := Prod.mk.injEq .. ▸ h
          subst hk1
          subst hl1
          refine ⟨cat0, hcat, fun hne => ?_⟩
          rw [← hbuild, if_neg (by simpa using hne)]
          exact List.mem_cons_self _ _
        · obtain ⟨cat, hc, himp⟩ := ih m' hrest k l h
          exact ⟨cat, hc, fun hne => hsub _ (himp hne)⟩

theorem build_upload_data_mem {F : Type} (fmt : String → UploadInvoice → F)
    (g : List (String × List UploadInvoice)) :
    ∀ m, build_upload_data fmt g = some m →
      ∀ p ∈ m, ∃ k l cat, (k, l) ∈ g ∧ CATEGORY_MAP k = some cat ∧
        p = (string_lower cat, l.map (fmt cat)) ∧ l ≠ [] := by
  induction g with
  | nil =>
    intro m hbuild p hp
    simp only [build_upload_data, Option.some.injEq] at hbuild
    subst hbuild
    simp at hp
  | cons head rest ih =>
    obtain ⟨k0, l0⟩ := head
    intro m hbuild p hp
    simp only [build_upload_data] at hbuild
    cases hcat : CATEGORY_MAP k0 with
    | none => rw [hcat] at hbuild; exact absurd hbuild (by simp)
    | some cat0 =>
      rw [hcat] at hbuild
      cases hrest : build_upload_data fmt rest with
      | none => rw [hrest] at hbuild; exact absurd hbuild (by simp)
      | some m' =>
        rw [hrest] at hbuild
        simp only [Option.some.injEq] at hbuild
        rw [← hbuild] at hp
        by_cases hempty : (l0.map (fmt cat0)).isEmpty
        · rw [if_pos hempty] at hp
          obtain ⟨k, l, cat, hg, hc, hpe, hne⟩ := ih m' hrest p hp
          exact ⟨k, l, cat, List.mem_cons_of_mem _ hg, hc, hpe, hne⟩
        · rw [if_neg hempty] at hp
          rcases List.mem_cons.mp hp with h | h
          · refine ⟨k0, l0, cat0, List.mem_cons_self _ _, hcat, h, ?_⟩
            intro hnil
            subst hnil
            simp at hempty
          · obtain ⟨k, l, cat, hg, hc, hpe, hne⟩ := ih m' hrest p h
            exact ⟨k, l, cat, List.mem_cons_of_mem _ hg, hc, hpe, hne⟩

theorem CATEGORY_MAP_range (k cat : String) (h : CATEGORY_MAP k = some cat) :
    cat = "B2B" ∨ cat = "B2BA" ∨ cat = "B2BDN" ∨ cat = "B2BDNA" ∨
      cat = "B2BCN" ∨ cat = "B2BCNA" := by
  unfold CATEGORY_MAP at h
  split_ifs at h <;> simp_all

/-- C6: for every successful `get_data_for_upload` call, (1) every key of the
returned mapping is the lower-cased name of one of the six portal categories
and no key maps to an empty invoice list; (2) every eligible invoice is placed
(formatted) under the lower-cased category determined by its
(document type, amendment flag) key via `CATEGORY_MAP`; (3) conversely every
entry of the mapping holds only invoices whose key maps to that category. -/
theorem get_data_for_upload_categories {F : Type}
    (fmt : String → UploadInvoice → F)
    (gst_inward_supply_list : List UploadInvoice)
    (m : List (String × List F))
    (hm : get_data_for_upload fmt gst_inward_supply_list = some m) :
    (∀ p ∈ m,
      p.1 ∈ ["b2b", "b2ba", "b2bdn", "b2bdna", "b2bcn", "b2bcna"] ∧
      p.2 ≠ []) ∧
    (∀ invoice ∈ gst_inward_supply_list,
      ∃ cat, CATEGORY_MAP (invoice_key invoice) = some cat ∧
        ∃ l, (string_lower cat, l) ∈ m ∧ fmt cat invoice ∈ l) ∧
    (∀ p ∈ m, ∀ x ∈ p.2,
      ∃ invoice ∈ gst_inward_supply_list, ∃ cat,
        CATEGORY_MAP (invoice_key invoice) = some cat ∧
        p.1 = string_lower cat ∧ x = fmt cat invoice) := by
  refine ⟨fun p hp => ?_, fun invoice hinv => ?_, fun p hp x hx => ?_⟩
  · obtain ⟨k, l, cat, hg, hcat, hpe, hlne⟩ :=
      build_upload_data_mem fmt _ m hm p hp
    subst hpe
    have hmem6 : ∀ c : String,
        (c = "B2B" ∨ c = "B2BA" ∨ c = "B2BDN" ∨ c = "B2BDNA" ∨
          c = "B2BCN" ∨ c = "B2BCNA") →
        string_lower c ∈ ["b2b", "b2ba", "b2bdn", "b2bdna", "b2bcn",
          "b2bcna"] := by
      rintro c (rfl | rfl | rfl | rfl | rfl | rfl) <;> decide
    exact ⟨hmem6 cat (CATEGORY_MAP_range k cat hcat), by simpa using hlne⟩
  · obtain ⟨l, hg, hin⟩ := group_by_key_covers gst_inward_supply_list
      invoice hinv
    obtain ⟨cat, hcat, himp⟩ :=
      build_upload_data_of_group fmt _ m hm _ l hg
    refine ⟨cat, hcat, l.map (fmt cat),
      himp (List.ne_nil_of_mem hin), List.mem_map_of_mem _ hin⟩
  · obtain ⟨k, l, cat, hg, hcat, hpe, hlne⟩ :=
      build_upload_data_mem fmt _ m hm p hp
    subst hpe
    simp only at hx
    obtain ⟨invoice, hin, hfmt⟩ := List.mem_map.mp hx
    have hsound := (group_by_key_sound gst_inward_supply_list (k, l) hg).2
      invoice hin
    refine ⟨invoice, hsound.2, cat, ?_, rfl, hfmt.symm⟩
    rw [hsound.1]
    exact hcat

/-- Witness for C6 at a concrete eligible list and mapping. -/
theorem get_data_for_upload_categories_witness :
    get_data_for_upload (fun category invoice => (category, invoice))
        [⟨"Invoice", 0⟩, ⟨"Credit Note", 1⟩] =
      some [("b2b", [("B2B", ⟨"Invoice", 0⟩)]),
            ("b2bcna", [("B2BCNA", ⟨"Credit Note", 1⟩)])] ∧
    (∀ p ∈ [("b2b", [(("B2B" : String), (⟨"Invoice", 0⟩ : UploadInvoice))]),
            ("b2bcna", [("B2BCNA", ⟨"Credit Note", 1⟩)])],
      p.1 ∈ ["b2b", "b2ba", "b2bdn", "b2bdna", "b2bcn", "b2bcna"] ∧
      p.2 ≠ []) := by
  have h : get_data_for_upload (fun category invoice => (category, invoice))
      [⟨"Invoice", 0⟩, ⟨"Credit Note", 1⟩] =
      some [("b2b", [("B2B", ⟨"Invoice", 0⟩)]),
            ("b2bcna", [("B2BCNA", ⟨"Credit Note", 1⟩)])] := by decide
  exact ⟨h, (get_data_for_upload_categories _ _ _ h).1⟩

theorem digitChar_ne_underscore (m : Nat) : Nat.digitChar m ≠ '_' := by
  rcases Nat.lt_or_ge m 16 with h | h
  · interval_cases m <;> decide
  · unfold Nat.digitChar
    rw [if_neg (by omega : ¬ m = 0), if_neg (by omega : ¬ m = 1),
      if_neg (by omega : ¬ m = 2), if_neg (by omega : ¬ m = 3),
      if_neg (by omega : ¬ m = 4), if_neg (by omega : ¬ m = 5),
      if_neg (by omega : ¬ m = 6), if_neg (by omega : ¬ m = 7),
      if_neg (by omega : ¬ m = 8), if_neg (by omega : ¬ m = 9),
      if_neg (by omega : ¬ m = 10), if_neg (by omega : ¬ m = 11),
      if_neg (by omega : ¬ m = 12), if_neg (by omega : ¬ m = 13),
      if_neg (by omega : ¬ m = 14), if_neg (by omega : ¬ m = 15)]
    decide

theorem underscore_not_mem_toDigitsCore (fuel : Nat) :
    ∀ (n : Nat) (acc : List Char), '_' ∉ acc →
      '_' ∉ Nat.toDigitsCore 10 fuel n acc := by
  induction fuel with
  | zero =>
    intro n acc hacc
    simpa [Nat.toDigitsCore] using hacc
  | succ fuel ih =>
    intro n acc hacc
    simp only [Nat.toDigitsCore]
    have hcons : '_' ∉ Nat.digitChar (n % 10) :: acc := by
      intro hmem
      rcases List.mem_cons.mp hmem with h | h
      · exact digitChar_ne_underscore _ h.symm
      · exact hacc h
    split
    · exact hcons
    · exact ih _ _ hcons

theorem underscore_not_mem_repr (n : Nat) : '_' ∉ (Nat.repr n).data := by
  simp only [Nat.repr, Nat.toDigits, List.asString]
  exact underscore_not_mem_toDigitsCore _ _ _ (by simp)

theorem toDigitsCore_length_ge (fuel : Nat) :
    ∀ (n : Nat) (acc : List Char),
      acc.length ≤ (Nat.toDigitsCore 10 fuel n acc).length := by
  induction fuel with
  | zero => intro n acc; simp [Nat.toDigitsCore]
  | succ fuel ih =>
    intro n acc
    simp only [Nat.toDigitsCore]
    split
    · simp
    · calc acc.length ≤ (Nat.digitChar (n % 10) :: acc).length := by simp
        _ ≤ _ := ih _ _

theorem repr_data_length_ge_two (n : Nat) (h : 10 ≤ n) :
    2 ≤ (Nat.repr n).data.length := by
  simp only [Nat.repr, Nat.toDigits, List.asString]
  show 2 ≤ (Nat.toDigitsCore 10 (n + 1) n []).length
  simp only [Nat.toDigitsCore]
  have h10 : ¬ n / 10 = 0 := by omega
  rw [if_neg h10]
  rcases n with _ | m
  · omega
  · simp only [Nat.toDigitsCore]
    split
    · simp
    · calc 2 ≤ (Nat.digitChar ((m + 1) / 10 % 10) ::
            [Nat.digitChar ((m + 1) % 10)]).length := by simp
        _ ≤ _ := toDigitsCore_length_ge _ _ _

theorem repr_small (n : Nat) (h : n < 10) :
    (Nat.repr n).data = [Nat.digitChar n] := by
  simp only [Nat.repr, Nat.toDigits, List.asString]
  show (Nat.toDigitsCore 10 (n + 1) n []) = _
  simp only [Nat.toDigitsCore]
  rw [if_pos (by omega), Nat.mod_eq_of_lt h]

theorem repr_single_char (n : Nat) (c : Char)
    (h : (Nat.repr n).data = [c]) : n < 10 ∧ Nat.digitChar n = c := by
  by_cases hn : n < 10
  · refine ⟨hn, ?_⟩
    rw [repr_small n hn] at h
    simpa using h
  · push_neg at hn
    have h2 := repr_data_length_ge_two n hn
    rw [h] at h2
    simp at h2

theorem eq_zero_of_repr_data (n : Nat)
    (h : (Nat.repr n).data = ['0']) : n = 0 := by
  obtain ⟨hlt, hd⟩ := repr_single_char n '0' h
  interval_cases n <;> first | rfl | exact absurd hd (by decide)

theorem eq_one_of_repr_data (n : Nat)
    (h : (Nat.repr n).data = ['1']) : n = 1 := by
  obtain ⟨hlt, hd⟩ := repr_single_char n '1' h
  interval_cases n <;> first | rfl | exact absurd hd (by decide)

theorem split_first_unique (u1 : List Char) :
    ∀ (v1 u2 v2 : List Char), '_' ∉ u1 → '_' ∉ u2 →
      u1 ++ '_' :: v1 = u2 ++ '_' :: v2 → u1 = u2 ∧ v1 = v2 := by
  induction u1 with
  | nil =>
    intro v1 u2 v2 _ hu2 heq
    cases u2 with
    | nil => simpa using heq
    | cons c u2' =>
      exfalso
      simp only [List.nil_append, List.cons_append, List.cons.injEq] at heq
      exact hu2 (by rw [← heq.1]; exact List.mem_cons_self _ _)
  | cons c u1' ih =>
    intro v1 u2 v2 hu1 hu2 heq
    cases u2 with
    | nil =>
      exfalso
      simp only [List.cons_append, List.nil_append, List.cons.injEq] at heq
      exact hu1 (by rw [heq.1]; exact List.mem_cons_self _ _)
    | cons c2 u2' =>
      simp only [List.cons_append, List.cons.injEq] at heq
      obtain ⟨hc, hrest⟩ := heq
      obtain ⟨h1, h2⟩ := ih v1 u2' v2
        (fun hm => hu1 (List.mem_cons_of_mem _ hm))
        (fun hm => hu2 (List.mem_cons_of_mem _ hm)) hrest
      exact ⟨by rw [hc, h1], h2⟩

theorem split_last_unique (a1 b1 a2 b2 : List Char) (hb1 : '_' ∉ b1)
    (hb2 : '_' ∉ b2) (heq : a1 ++ '_' :: b1 = a2 ++ '_' :: b2) :
    a1 = a2 ∧ b1 = b2 := by
  have hrev : b1.reverse ++ '_' :: a1.reverse =
      b2.reverse ++ '_' :: a2.reverse := by
    have h := congrArg List.reverse heq
    simpa [List.reverse_append] using h
  obtain ⟨h1, h2⟩ := split_first_unique b1.reverse a1.reverse b2.reverse
    a2.reverse (by simpa using hb1) (by simpa using hb2) hrev
  exact ⟨List.reverse_injective h2, List.reverse_injective h1⟩

theorem invoice_key_decode (invoice : UploadInvoice) (u : List Char) (c : Char)
    (hc : ¬ c = '_')
    (h : invoice_key invoice = String.mk (u ++ '_' :: [c])) :
    invoice.doc_type = String.mk u ∧
      (Nat.repr invoice.is_amended).data = [c] := by
  have hdata : invoice.doc_type.data ++
      '_' :: (Nat.repr invoice.is_amended).data = u ++ '_' :: [c] := by
    have h2 := congrArg String.data h
    simpa [invoice_key, String.data_append] using h2
  have hcs : '_' ∉ [c] := by
    simp only [List.mem_singleton]
    exact fun hx => hc hx.symm
  obtain ⟨h1, h2⟩ := split_last_unique _ _ _ _
    (underscore_not_mem_repr _) hcs hdata
  exact ⟨String.ext h1, h2⟩

theorem mem_valid_domain_of_category (invoice : UploadInvoice) (cat : String)
    (h : CATEGORY_MAP (invoice_key invoice) = some cat) :
    (invoice.doc_type, invoice.is_amended) ∈ valid_upload_domain := by
  unfold CATEGORY_MAP at h
  split_ifs at h with h1 h2 h3 h4 h5 h6
  · obtain ⟨hdt, hrd⟩ := invoice_key_decode invoice "Invoice".data '0'
      (by decide)
      (h1.trans (by decide : ("Invoice_0" : String) =
        String.mk ("Invoice".data ++ '_' :: ['0'])))
    have hn := eq_zero_of_repr_data _ hrd
    have hdt' : invoice.doc_type = "Invoice" := hdt.trans (by decide)
    simp [valid_upload_domain, hdt', hn]
  · obtain ⟨hdt, hrd⟩ := invoice_key_decode invoice "Invoice".data '1'
      (by decide)
      (h2.trans (by decide : ("Invoice_1" : String) =
        String.mk ("Invoice".data ++ '_' :: ['1'])))
    have hn := eq_one_of_repr_data _ hrd
    have hdt' : invoice.doc_type = "Invoice" := hdt.trans (by decide)
    simp [valid_upload_domain, hdt', hn]
  · obtain ⟨hdt, hrd⟩ := invoice_key_decode invoice "Debit Note".data '0'
      (by decide)
      (h3.trans (by decide : ("Debit Note_0" : String) =
        String.mk ("Debit Note".data ++ '_' :: ['0'])))
    have hn := eq_zero_of_repr_data _ hrd
    have hdt' : invoice.doc_type = "Debit Note" := hdt.trans (by decide)
    simp [valid_upload_domain, hdt', hn]
  · obtain ⟨hdt, hrd⟩ := invoice_key_decode invoice "Debit Note".data '1'
      (by decide)
      (h4.trans (by decide : ("Debit Note_1" : String) =
        String.mk ("Debit Note".data ++ '_' :: ['1'])))
    have hn := eq_one_of_repr_data _ hrd
    have hdt' : invoice.doc_type = "Debit Note" := hdt.trans (by decide)
    simp [valid_upload_domain, hdt', hn]
  · obtain ⟨hdt, hrd⟩ := invoice_key_decode invoice "Credit Note".data '0'
      (by decide)
      (h5.trans (by decide : ("Credit Note_0" : String) =
        String.mk ("Credit Note".data ++ '_' :: ['0'])))
    have hn := eq_zero_of_repr_data _ hrd
    have hdt' : invoice.doc_type = "Credit Note" := hdt.trans (by decide)
    simp [valid_upload_domain, hdt', hn]
  · obtain ⟨hdt, hrd⟩ := invoice_key_decode invoice "Credit Note".data '1'
      (by decide)
      (h6.trans (by decide : ("Credit Note_1" : String) =
        String.mk ("Credit Note".data ++ '_' :: ['1'])))
    have hn := eq_one_of_repr_data _ hrd
    have hdt' : invoice.doc_type = "Credit Note" := hdt.trans (by decide)
    simp [valid_upload_domain, hdt', hn]

theorem build_upload_data_isSome {F : Type} (fmt : String → UploadInvoice → F)
    (g : List (String × List UploadInvoice)) :
    (∀ p ∈ g, (CATEGORY_MAP p.1).isSome) →
      (build_upload_data fmt g).isSome := by
  induction g with
  | nil => intro _; simp [build_upload_data]
  | cons head rest ih =>
    intro hall
    obtain ⟨k0, l0⟩ := head
    obtain ⟨cat0, hcat⟩ := Option.isSome_iff_exists.mp
      (hall (k0, l0) (List.mem_cons_self _ _))
    obtain ⟨m', hm'⟩ := Option.isSome_iff_exists.mp
      (ih (fun p hp => hall p (List.mem_cons_of_mem _ hp)))
    simp only [build_upload_data, hcat, hm']
    split <;> simp

theorem build_upload_data_none {F : Type} (fmt : String → UploadInvoice → F)
    (g : List (String × List UploadInvoice)) :
    ∀ k l, (k, l) ∈ g → CATEGORY_MAP k = none →
      build_upload_data fmt g = none := by
  induction g with
  | nil => intro k l hmem _; simp at hmem
  | cons head rest ih =>
    intro k l hmem hnone
    obtain ⟨k0, l0⟩ := head
    rcases List.mem_cons.mp hmem with h | h
    · obtain ⟨hk1, _⟩ := Prod.mk.injEq .. ▸ h
      subst hk1
      simp only [build_upload_data, hnone]
    · simp only [build_upload_data]
      cases hcat : CATEGORY_MAP k0 with
      | none => rfl
      | some cat0 => rw [ih k l h hnone]

theorem CATEGORY_MAP_isSome_of_domain (invoice : UploadInvoice)
    (h : (invoice.doc_type, invoice.is_amended) ∈ valid_upload_domain) :
    (CATEGORY_MAP (invoice_key invoice)).isSome := by
  simp only [valid_upload_domain, List.mem_cons, List.not_mem_nil, or_false,
    Prod.mk.injEq] at h
  rcases h with ⟨h1, h2⟩ | ⟨h1, h2⟩ | ⟨h1, h2⟩ | ⟨h1, h2⟩ | ⟨h1, h2⟩ |
      ⟨h1, h2⟩ <;>
    · unfold invoice_key
      rw [h1, h2]
      decide

theorem CATEGORY_MAP_none_of_not_domain (invoice : UploadInvoice)
    (h : (invoice.doc_type, invoice.is_amended) ∉ valid_upload_domain) :
    CATEGORY_MAP (invoice_key invoice) = none := by
  cases hc : CATEGORY_MAP (invoice_key invoice) with
  | none => rfl
  | some cat => exact absurd (mem_valid_domain_of_category invoice cat hc) h

/-- C10: `get_data_for_upload` is total exactly on invoice lists whose
(document type, amendment flag) pairs all lie in the six-entry domain
{Invoice, Debit Note, Credit Note} x {0, 1}: under that precondition the
unguarded `CATEGORY_MAP[key]` lookup never fails, and any eligible invoice
outside the domain makes the whole call raise a `KeyError` (`none`). -/
theorem get_data_for_upload_total_on_domain {F : Type}
    (fmt : String → UploadInvoice → F)
    (gst_inward_supply_list : List UploadInvoice) :
    ((∀ invoice ∈ gst_inward_supply_list,
        (invoice.doc_type, invoice.is_amended) ∈ valid_upload_domain) →
      (get_data_for_upload fmt gst_inward_supply_list).isSome) ∧
    (∀ invoice ∈ gst_inward_supply_list,
      (invoice.doc_type, invoice.is_amended) ∉ valid_upload_domain →
      get_data_for_upload fmt gst_inward_supply_list = none) := by
  constructor
  · intro hall
    apply build_upload_data_isSome
    intro p hp
    obtain ⟨hne, hxs⟩ := group_by_key_sound gst_inward_supply_list p hp
    obtain ⟨x, hx⟩ := List.exists_mem_of_ne_nil _ hne
    obtain ⟨hkey, hmem⟩ := hxs x hx
    rw [← hkey]
    exact CATEGORY_MAP_isSome_of_domain x (hall x hmem)
  · intro invoice hmem hdom
    obtain ⟨l, hg, _⟩ :=
      group_by_key_covers gst_inward_supply_list invoice hmem
    exact build_upload_data_none fmt _ _ l hg
      (CATEGORY_MAP_none_of_not_domain invoice hdom)

/-- Witness for C10: a fully in-domain list succeeds and a list containing an
out-of-domain invoice fails with a `KeyError`. -/
theorem get_data_for_upload_total_on_domain_witness :
    (get_data_for_upload (fun category invoice => (category, invoice))
      [⟨"Invoice", 0⟩, ⟨"Debit Note", 1⟩]).isSome ∧
    get_data_for_upload (fun category invoice => (category, invoice))
      [⟨"Invoice", 0⟩, ⟨"Bill of Entry", 2⟩] = none :=
  ⟨(get_data_for_upload_total_on_domain _ _).1 (by decide),
    (get_data_for_upload_total_on_domain _
      [⟨"Invoice", 0⟩, ⟨"Bill of Entry", 2⟩]).2
      ⟨"Bill of Entry", 2⟩ (by decide) (by decide)⟩

/-- C7: when no `GST Return Log` named `IMS-ALL-<gstin>` exists,
`save_ims_invoices` (and likewise `reset_ims_invoices`) fails with
"Please download invoices before uploading", makes no portal call and
persists no token (and, a fortiori, changes no invoice state: neither
function writes to any invoice). -/
theorem save_reset_require_return_log {F : Type}
    (fmt : String → UploadInvoice → F) (eligible : List UploadInvoice)
    (request_in_progress : Bool) :
    save_ims_invoices false fmt eligible request_in_progress =
      ⟨some "Please download invoices before uploading", none, false⟩ ∧
    reset_ims_invoices false fmt eligible request_in_progress =
      ⟨some "Please download invoices before uploading", none, false⟩ :=
  ⟨rfl, rfl⟩

/-- C8: with the return log present and an empty eligible invoice set,
`save_ims_invoices` (and likewise `reset_ims_invoices`) returns normally:
no error, no portal call, no token persisted. -/
theorem save_reset_empty_eligible_noop {F : Type}
    (fmt : String → UploadInvoice → F) (request_in_progress : Bool) :
    save_ims_invoices true fmt [] request_in_progress =
      ⟨none, none, false⟩ ∧
    reset_ims_invoices true fmt [] request_in_progress =
      ⟨none, none, false⟩ :=
  ⟨rfl, rfl⟩

/-- C9: a poll that finds an unprocessed action row and receives portal
status `"IP"` persists no status, emits no notification, enqueues no
post-completion reconciliation task, and returns the raw response. -/
theorem process_ims_in_progress_no_effects (return_period gstin : String)
    (doc : ActionDocRecord)
    (get_request_status : String → PortalStatusResponse)
    (status_code_map : String → Option String) (api_request_id : String)
    (hip : (get_request_status doc.token).status_cd = "IP") :
    process_save_or_reset_ims return_period gstin (some doc)
        get_request_status status_code_map api_request_id =
      ⟨get_request_status doc.token, none, none, none⟩ := by
  unfold process_save_or_reset_ims
  simp [hip]

/-- Witness for C9 at a concrete portal response. -/
theorem process_ims_in_progress_no_effects_witness :
    ((fun _ : String => (⟨"IP", none⟩ : PortalStatusResponse))
      (ActionDocRecord.token ⟨"tok1", "save", "req1"⟩)).status_cd = "IP" ∧
    process_save_or_reset_ims "042025" "07AAAAA0000A1Z5"
        (some ⟨"tok1", "save", "req1"⟩)
        (fun _ => ⟨"IP", none⟩) (fun _ => none) "req2" =
      ⟨⟨"IP", none⟩, none, none, none⟩ :=
  ⟨rfl, process_ims_in_progress_no_effects "042025" "07AAAAA0000A1Z5"
    ⟨"tok1", "save", "req1"⟩ (fun _ => ⟨"IP", none⟩) (fun _ => none)
    "req2" rfl⟩
